import Mathlib

/-!
Shallow embedding of the Lox scanner in `src/tokenizer.rs`.

Source text is modelled as its list of UTF-8 bytes (`List Nat`), matching the
byte-indexed slicing the Rust code performs on `String`.  A Rust panic —
indexing a `str` at a non-character-boundary, as `Scanner::current_char`
can do — is modelled as `none`.  All other operations of the scanner are
total and are modelled directly.
-/

/-- Bytes of an ASCII string literal, used for error messages and rendered
token lines.  For ASCII text this agrees with the UTF-8 bytes. -/
def ascii (s : String) : List Nat := s.data.map Char.toNat

/-- Rust `str::is_char_boundary` on a UTF-8 byte list: true at the end of the
string and at any in-bounds index holding a non-continuation byte. -/
def isCharBoundary (s : List Nat) (i : Nat) : Bool :=
  if i = s.length then true
  else match s.get? i with
    | some b => decide (b < 128 ∨ 192 ≤ b)
    | none => false

/-- Rust `str::get(a..b)` on a UTF-8 byte list: `some` slice when the range is
in bounds and both ends are character boundaries, `none` otherwise.  Direct
indexing `&s[a..b]` panics exactly when this returns `none`. -/
def strGetRange (s : List Nat) (a b : Nat) : Option (List Nat) :=
  if a ≤ b ∧ b ≤ s.length ∧ isCharBoundary s a ∧ isCharBoundary s b then
    some ((s.drop a).take (b - a))
  else none

/-- The `TokenType` enum of `src/tokenizer.rs`.  `UnknownToken` carries the
offending character as its UTF-8 bytes. -/
inductive TokenType where
  | LeftParen
  | RightParen
  | LeftBrace
  | RightBrace
  | Comma
  | Dot
  | Minus
  | Plus
  | Semicolon
  | Star
  | Equal
  | EqualEqual
  | Bang
  | BangEqual
  | Less
  | LessEqual
  | Greater
  | GreaterEqual
  | Eof
  | UnknownToken (s : List Nat)
  deriving Repr, DecidableEq

/-- The `Token` struct of `src/tokenizer.rs`: kind, lexeme bytes, optional
literal, and the (1-based, `i32`) line number. -/
structure Token where
  token_type : TokenType
  lexeme : List Nat
  literal : Option (List Nat)
  line : Int
  deriving Repr, DecidableEq

/-- The `LoxError` struct of `src/tokenizer.rs`: line number and message
bytes. -/
structure LoxError where
  line : Int
  message : List Nat
  deriving Repr, DecidableEq

/-- The `Scanner` struct of `src/tokenizer.rs`.  `start` and `current` are
byte offsets into `source`; `errors` is `none` until the scan stores a
non-empty error list. -/
structure Scanner where
  source : List Nat
  tokens : List Token
  start : Nat
  current : Nat
  line : Int
  errors : Option (List LoxError)
  deriving Repr, DecidableEq

/-- `Display for TokenType` of `src/tokenizer.rs`, as output bytes. -/
def TokenType.display : TokenType → List Nat
  | .LeftParen => ascii "LEFT_PAREN"
  | .RightParen => ascii "RIGHT_PAREN"
  | .LeftBrace => ascii "LEFT_BRACE"
  | .RightBrace => ascii "RIGHT_BRACE"
  | .Comma => ascii "COMMA"
  | .Dot => ascii "DOT"
  | .Minus => ascii "MINUS"
  | .Plus => ascii "PLUS"
  | .Semicolon => ascii "SEMICOLON"
  | .Star => ascii "STAR"
  | .Equal => ascii "EQUAL"
  | .EqualEqual => ascii "EQUAL_EQUAL"
  | .Bang => ascii "BANG"
  | .BangEqual => ascii "BANG_EQUAL"
  | .Less => ascii "LESS"
  | .LessEqual => ascii "LESS_EQUAL"
  | .Greater => ascii "GREATER"
  | .GreaterEqual => ascii "GREATER_EQUAL"
  | .Eof => ascii "EOF"
  | .UnknownToken m => ascii "Unknown token " ++ m

/-- `Token::to_string` of `src/tokenizer.rs`: `"{} {} null"` when there is no
literal, `"{} {} {}"` otherwise (32 is the space byte). -/
def Token.to_string (t : Token) : List Nat :=
  match t.literal with
  | none => t.token_type.display ++ [32] ++ t.lexeme ++ [32] ++ ascii "null"
  | some lit => t.token_type.display ++ [32] ++ t.lexeme ++ [32] ++ lit

/-- `Scanner::new` of `src/tokenizer.rs`. -/
def Scanner.new (source : List Nat) : Scanner :=
  { source := source, tokens := [], start := 0, current := 0, line := 1,
    errors := none }

/-- `Scanner::has_errors` of `src/tokenizer.rs`. -/
def Scanner.has_errors (sc : Scanner) : Bool := sc.errors.isSome

/-- `Scanner::is_at_end` of `src/tokenizer.rs`: `current >= source.len()`. -/
def Scanner.is_at_end (sc : Scanner) : Bool := decide (sc.source.length ≤ sc.current)

/-- `Scanner::advance` of `src/tokenizer.rs`: `current += 1`. -/
def Scanner.advance (sc : Scanner) : Scanner := { sc with current := sc.current + 1 }

/-- `Scanner::current_char` of `src/tokenizer.rs`:
`&self.source[start..current]`, a panicking slice (`none` = panic). -/
def Scanner.current_char (sc : Scanner) : Option (List Nat) :=
  strGetRange sc.source sc.start sc.current

/-- `Scanner::add_token` of `src/tokenizer.rs`:
`source.get(start..current).unwrap_or("")` becomes the lexeme. -/
def Scanner.add_token (sc : Scanner) (tt : TokenType) (lit : Option (List Nat)) :
    Scanner :=
  { sc with tokens := sc.tokens ++
      [{ token_type := tt,
         lexeme := (strGetRange sc.source sc.start sc.current).getD [],
         literal := lit, line := sc.line }] }

/-- `Scanner::matches_next` of `src/tokenizer.rs`: consult
`source.get(current..current + 1)` and consume it only on a match. -/
def Scanner.matches_next (sc : Scanner) (expected : List Nat) : Bool × Scanner :=
  if sc.is_at_end then (false, sc)
  else match strGetRange sc.source sc.current (sc.current + 1) with
    | none => (false, sc)
    | some next_char =>
      if next_char = expected then (true, { sc with current := sc.current + 1 })
      else (false, sc)

/-- `Scanner::scan_token` of `src/tokenizer.rs`: advance one byte, classify
the slice `source[start..current]`.  `none` models the panic of
`current_char` on a non-character-boundary. -/
def Scanner.scan_token (sc : Scanner) :
    Option ((TokenType × Option (List Nat)) × Scanner) :=
  let sc1 := sc.advance
  match sc1.current_char with
  | none => none
  | some cc =>
    if cc = [40] then some ((TokenType.LeftParen, none), sc1)
    else if cc = [41] then some ((TokenType.RightParen, none), sc1)
    else if cc = [123] then some ((TokenType.LeftBrace, none), sc1)
    else if cc = [125] then some ((TokenType.RightBrace, none), sc1)
    else if cc = [44] then some ((TokenType.Comma, none), sc1)
    else if cc = [46] then some ((TokenType.Dot, none), sc1)
    else if cc = [45] then some ((TokenType.Minus, none), sc1)
    else if cc = [43] then some ((TokenType.Plus, none), sc1)
    else if cc = [59] then some ((TokenType.Semicolon, none), sc1)
    else if cc = [42] then some ((TokenType.Star, none), sc1)
    else if cc = [61] then
      match sc1.matches_next [61] with
      | (true, sc2) => some ((TokenType.EqualEqual, none), sc2)
      | (false, sc2) => some ((TokenType.Equal, none), sc2)
    else if cc = [33] then
      match sc1.matches_next [61] with
      | (true, sc2) => some ((TokenType.BangEqual, none), sc2)
      | (false, sc2) => some ((TokenType.Bang, none), sc2)
    else if cc = [60] then
      match sc1.matches_next [61] with
      | (true, sc2) => some ((TokenType.LessEqual, none), sc2)
      | (false, sc2) => some ((TokenType.Less, none), sc2)
    else if cc = [62] then
      match sc1.matches_next [61] with
      | (true, sc2) => some ((TokenType.GreaterEqual, none), sc2)
      | (false, sc2) => some ((TokenType.Greater, none), sc2)
    else some ((TokenType.UnknownToken cc, none), sc1)

/-- One iteration of the `while` loop body of `Scanner::scan_tokens`:
set `start := current`, scan one token, then either record the error (for
`UnknownToken`) or append the token.  The produced error, if any, is
returned separately because `errors` is a local of `scan_tokens`. -/
def Scanner.scanStep (sc : Scanner) : Option (Scanner × Option LoxError) :=
  match ({ sc with start := sc.current } : Scanner).scan_token with
  | none => none
  | some ((tt, lit), sc1) =>
    match tt with
    | TokenType.UnknownToken u =>
      some (sc1, some { line := sc1.line, message := ascii "Unexpected character: " ++ u })
    | _ => some (sc1.add_token tt lit, none)

/-- The `while !self.is_at_end()` loop of `Scanner::scan_tokens`, with an
explicit fuel parameter (each iteration advances `current`, so a fuel of
`source.length - current` is exact; see the termination theorems). -/
def Scanner.scanLoopF : Nat → Scanner → List LoxError → Option (Scanner × List LoxError)
  | 0, sc, errs => if sc.is_at_end then some (sc, errs) else none
  | fuel + 1, sc, errs =>
    if sc.is_at_end then some (sc, errs)
    else match sc.scanStep with
      | none => none
      | some (sc1, none) => Scanner.scanLoopF fuel sc1 errs
      | some (sc1, some e) => Scanner.scanLoopF fuel sc1 (errs ++ [e])

/-- `Scanner::scan_tokens` of `src/tokenizer.rs`: run the loop, append the
`Eof` token, and store the error list if it is non-empty. -/
def Scanner.scan_tokens (sc : Scanner) : Option Scanner :=
  match Scanner.scanLoopF (sc.source.length - sc.current) sc [] with
  | none => none
  | some (sc1, errs) =>
    let sc2 : Scanner := { sc1 with tokens := sc1.tokens ++
      [{ token_type := TokenType.Eof, lexeme := [], literal := none, line := sc1.line }] }
    some (if errs.isEmpty then sc2 else { sc2 with errors := some errs })

/-- Whole-program scan: `Scanner::new` followed by `scan_tokens`, as the CLI
drives it.  `none` models a panic during scanning. -/
def runScan (source : List Nat) : Option Scanner :=
  (Scanner.new source).scan_tokens

/-- The errors collected by the loop of `scan_tokens` for a given input
(empty when the scan panics; used to talk about recorded errors). -/
def runScanErrors (source : List Nat) : List LoxError :=
  match Scanner.scanLoopF source.length (Scanner.new source) [] with
  | none => []
  | some (_, errs) => errs

/-- ASCII sources: every byte is below 128. -/
def asciiSource (s : List Nat) : Prop := ∀ b ∈ s, b < 128

/-- The ten single-character punctuation bytes together with their token
kinds, as classified by `scan_token`. -/
def punctType (b : Nat) : Option TokenType :=
  if b = 40 then some TokenType.LeftParen
  else if b = 41 then some TokenType.RightParen
  else if b = 123 then some TokenType.LeftBrace
  else if b = 125 then some TokenType.RightBrace
  else if b = 44 then some TokenType.Comma
  else if b = 46 then some TokenType.Dot
  else if b = 45 then some TokenType.Minus
  else if b = 43 then some TokenType.Plus
  else if b = 59 then some TokenType.Semicolon
  else if b = 42 then some TokenType.Star
  else none

/-- The token kind emitted for an operator byte when the following byte is
`=`: the combined two-character kind. -/
def combinedType (b : Nat) : Option TokenType :=
  if b = 61 then some TokenType.EqualEqual
  else if b = 33 then some TokenType.BangEqual
  else if b = 60 then some TokenType.LessEqual
  else if b = 62 then some TokenType.GreaterEqual
  else none

/-- The token kind emitted for an operator byte when the following byte is
not `=`: the one-character kind. -/
def singleOpType (b : Nat) : Option TokenType :=
  if b = 61 then some TokenType.Equal
  else if b = 33 then some TokenType.Bang
  else if b = 60 then some TokenType.Less
  else if b = 62 then some TokenType.Greater
  else none

/-- Bytes recognized by `scan_token` (everything else becomes
`UnknownToken`). -/
def recognizedByte (b : Nat) : Bool :=
  (punctType b).isSome || (singleOpType b).isSome

/-- Message bytes of the error recorded for an unrecognized character. -/
def unexpectedMsg (b : Nat) : List Nat := ascii "Unexpected character: " ++ [b]

/-- Number of errors in a list carrying a given message. -/
def countMsg (l : List LoxError) (m : List Nat) : Nat :=
  (l.filter (fun e => decide (e.message = m))).length

lemma strGetRange_bounds {s : List Nat} {a b : Nat} {l : List Nat}
    (h : strGetRange s a b = some l) : a ≤ b ∧ b ≤ s.length := by
  unfold strGetRange at h
  split at h
  case isTrue hc => exact ⟨hc.1, hc.2.1⟩
  case isFalse => simp at h

lemma isCharBoundary_of_lt128 {s : List Nat} {i b : Nat}
    (h : s.get? i = some b) (hb : b < 128) : isCharBoundary s i = true := by
  have hlen : i < s.length := (List.get?_eq_some.mp h).1
  unfold isCharBoundary
  rw [if_neg (by omega), h]
  simp only [decide_eq_true_eq]
  exact Or.inl hb

lemma isCharBoundary_end (s : List Nat) : isCharBoundary s s.length = true := by
  unfold isCharBoundary
  simp

lemma get?_exists_of_lt {s : List Nat} {i : Nat} (h : i < s.length) :
    ∃ b, s.get? i = some b := by
  cases hg : s.get? i
  · rw [List.get?_eq_none] at hg; omega
  · exact ⟨_, rfl⟩

lemma asciiSource_boundary {s : List Nat} (hs : asciiSource s) {i : Nat}
    (hi : i ≤ s.length) : isCharBoundary s i = true := by
  rcases Nat.lt_or_ge i s.length with h | h
  · obtain ⟨b, hb⟩ := get?_exists_of_lt h
    have hmem : b ∈ s := by
      have := List.get?_eq_some.mp hb
      obtain ⟨hlt, hget⟩ := this
      exact hget ▸ List.get_mem s i hlt
    exact isCharBoundary_of_lt128 hb (hs b hmem)
  · have heq : i = s.length := le_antisymm hi h
    rw [heq]; exact isCharBoundary_end s

lemma getElem_of_get? {s : List Nat} {i b : Nat} (h : s.get? i = some b) :
    ∃ hlt : i < s.length, s[i] = b := by
  rw [List.get?_eq_getElem?] at h
  exact List.getElem?_eq_some.mp h

lemma strGetRange_single {s : List Nat} {c b : Nat}
    (h : s.get? c = some b) (h0 : isCharBoundary s c = true)
    (h1 : isCharBoundary s (c + 1) = true) :
    strGetRange s c (c + 1) = some [b] := by
  obtain ⟨hlt, hb⟩ := getElem_of_get? h
  have hcond : c ≤ c + 1 ∧ c + 1 ≤ s.length ∧ isCharBoundary s c = true ∧
      isCharBoundary s (c + 1) = true := ⟨by omega, by omega, h0, h1⟩
  unfold strGetRange
  rw [if_pos hcond]
  have hd : s.drop c = s[c] :: s.drop (c + 1) := List.drop_eq_getElem_cons hlt
  have h1c : c + 1 - c = 1 := by omega
  rw [h1c, hd, hb]
  rfl

lemma strGetRange_two {s : List Nat} {c b d : Nat}
    (h : s.get? c = some b) (h2 : s.get? (c + 1) = some d)
    (h0 : isCharBoundary s c = true) (hb2 : isCharBoundary s (c + 2) = true) :
    strGetRange s c (c + 2) = some [b, d] := by
  obtain ⟨hlt, hbe⟩ := getElem_of_get? h
  obtain ⟨hlt2, hde⟩ := getElem_of_get? h2
  have hcond : c ≤ c + 2 ∧ c + 2 ≤ s.length ∧ isCharBoundary s c = true ∧
      isCharBoundary s (c + 2) = true := ⟨by omega, by omega, h0, hb2⟩
  unfold strGetRange
  rw [if_pos hcond]
  have hd1 : s.drop c = s[c] :: s.drop (c + 1) := List.drop_eq_getElem_cons hlt
  have hd2 : s.drop (c + 1) = s[c + 1] :: s.drop (c + 2) := List.drop_eq_getElem_cons hlt2
  have h2c : c + 2 - c = 2 := by omega
  rw [h2c, hd1, hd2, hbe, hde]
  rfl

lemma matches_next_cases (sc : Scanner) (e : List Nat) :
    sc.matches_next e = (false, sc) ∨
    (sc.matches_next e = (true, { sc with current := sc.current + 1 }) ∧
     sc.current < sc.source.length) := by
  unfold Scanner.matches_next
  split
  · exact Or.inl rfl
  case isFalse hend =>
    have hlt : sc.current < sc.source.length := by
      unfold Scanner.is_at_end at hend
      simp at hend
      omega
    cases hg : strGetRange sc.source sc.current (sc.current + 1) with
    | none => exact Or.inl rfl
    | some nc =>
      by_cases hne : nc = e
      · subst hne
        refine Or.inr ⟨?_, hlt⟩
        simp
      · refine Or.inl ?_
        simp [hne]

lemma matches_next_matched {sc : Scanner}
    (h : sc.source.get? sc.current = some 61)
    (hb : isCharBoundary sc.source (sc.current + 1) = true) :
    sc.matches_next [61] = (true, { sc with current := sc.current + 1 }) := by
  have hlt : sc.current < sc.source.length := (List.get?_eq_some.mp h).1
  have h0 : isCharBoundary sc.source sc.current = true :=
    isCharBoundary_of_lt128 h (by omega)
  have hg : strGetRange sc.source sc.current (sc.current + 1) = some [61] :=
    strGetRange_single h h0 hb
  unfold Scanner.matches_next
  rw [if_neg (by unfold Scanner.is_at_end; simp; omega), hg]
  simp

lemma matches_next_missed_none {sc : Scanner}
    (h : sc.source.get? sc.current = none) (e : List Nat) :
    sc.matches_next e = (false, sc) := by
  rw [List.get?_eq_none] at h
  unfold Scanner.matches_next
  rw [if_pos (by unfold Scanner.is_at_end; simp; omega)]

lemma matches_next_missed_ne {sc : Scanner} {d : Nat}
    (h : sc.source.get? sc.current = some d) (hd : d ≠ 61) :
    sc.matches_next [61] = (false, sc) := by
  have hlt : sc.current < sc.source.length := (List.get?_eq_some.mp h).1
  unfold Scanner.matches_next
  rw [if_neg (by unfold Scanner.is_at_end; simp; omega)]
  cases hg : strGetRange sc.source sc.current (sc.current + 1) with
  | none => rfl
  | some nc =>
    have hnc : nc = [d] := by
      unfold strGetRange at hg
      split at hg
      case isTrue hc =>
        obtain ⟨hlt2, hde⟩ := getElem_of_get? h
        have hd1 : sc.source.drop sc.current = sc.source[sc.current] :: sc.source.drop (sc.current + 1) :=
          List.drop_eq_getElem_cons hlt2
        have h1c : sc.current + 1 - sc.current = 1 := by omega
        rw [h1c, hd1, hde] at hg
        exact (Option.some.injEq _ _ ▸ hg).symm
      case isFalse => simp at hg
    subst hnc
    simp [hd]

lemma not_recognized_ne {b : Nat} (h : recognizedByte b = false) :
    b ≠ 40 ∧ b ≠ 41 ∧ b ≠ 123 ∧ b ≠ 125 ∧ b ≠ 44 ∧ b ≠ 46 ∧ b ≠ 45 ∧ b ≠ 43 ∧
    b ≠ 59 ∧ b ≠ 42 ∧ b ≠ 61 ∧ b ≠ 33 ∧ b ≠ 60 ∧ b ≠ 62 := by
  refine ⟨?_, ?_, ?_, ?_, ?_, ?_, ?_, ?_, ?_, ?_, ?_, ?_, ?_, ?_⟩ <;>
    (rintro rfl; exact absurd h (by decide))

lemma scan_token_cases (sc : Scanner) :
    sc.scan_token = none ∨
    ∃ tt sc1, sc.scan_token = some ((tt, none), sc1) ∧
      sc1.source = sc.source ∧ sc1.start = sc.start ∧ sc1.line = sc.line ∧
      sc1.tokens = sc.tokens ∧ sc1.errors = sc.errors ∧
      sc.current < sc1.current ∧ sc1.current ≤ sc.source.length ∧
      tt ≠ TokenType.Eof := by
  cases hcc : strGetRange sc.source sc.start (sc.current + 1) with
  | none =>
    left
    simp [Scanner.scan_token, Scanner.advance, Scanner.current_char, hcc]
  | some cc =>
    obtain ⟨-, hlen⟩ := strGetRange_bounds hcc
    right
    have mk1 : ∀ tt : TokenType, tt ≠ TokenType.Eof →
        sc.scan_token = some ((tt, none), { sc with current := sc.current + 1 }) →
        ∃ tt sc1, sc.scan_token = some ((tt, none), sc1) ∧
          sc1.source = sc.source ∧ sc1.start = sc.start ∧ sc1.line = sc.line ∧
          sc1.tokens = sc.tokens ∧ sc1.errors = sc.errors ∧
          sc.current < sc1.current ∧ sc1.current ≤ sc.source.length ∧
          tt ≠ TokenType.Eof := by
      intro tt hne he
      exact ⟨tt, _, he, rfl, rfl, rfl, rfl, rfl,
        by show sc.current < sc.current + 1; omega,
        by show sc.current + 1 ≤ sc.source.length; omega, hne⟩
    have mk2 : ∀ tt : TokenType, tt ≠ TokenType.Eof →
        sc.current + 1 + 1 ≤ sc.source.length →
        sc.scan_token = some ((tt, none), { sc with current := sc.current + 1 + 1 }) →
        ∃ tt sc1, sc.scan_token = some ((tt, none), sc1) ∧
          sc1.source = sc.source ∧ sc1.start = sc.start ∧ sc1.line = sc.line ∧
          sc1.tokens = sc.tokens ∧ sc1.errors = sc.errors ∧
          sc.current < sc1.current ∧ sc1.current ≤ sc.source.length ∧
          tt ≠ TokenType.Eof := by
      intro tt hne hl2 he
      exact ⟨tt, _, he, rfl, rfl, rfl, rfl, rfl,
        by show sc.current < sc.current + 1 + 1; omega,
        by show sc.current + 1 + 1 ≤ sc.source.length; omega, hne⟩
    by_cases h40 : cc = [40]
    · exact mk1 TokenType.LeftParen (by simp)
        (by simp [Scanner.scan_token, Scanner.advance, Scanner.current_char, hcc, h40])
    by_cases h41 : cc = [41]
    · exact mk1 TokenType.RightParen (by simp)
        (by simp [Scanner.scan_token, Scanner.advance, Scanner.current_char, hcc, h40, h41])
    by_cases h123 : cc = [123]
    · exact mk1 TokenType.LeftBrace (by simp)
        (by simp [Scanner.scan_token, Scanner.advance, Scanner.current_char, hcc,
          h40, h41, h123])
    by_cases h125 : cc = [125]
    · exact mk1 TokenType.RightBrace (by simp)
        (by simp [Scanner.scan_token, Scanner.advance, Scanner.current_char, hcc,
          h40, h41, h123, h125])
    by_cases h44 : cc = [44]
    · exact mk1 TokenType.Comma (by simp)
        (by simp [Scanner.scan_token, Scanner.advance, Scanner.current_char, hcc,
          h40, h41, h123, h125, h44])
    by_cases h46 : cc = [46]
    · exact mk1 TokenType.Dot (by simp)
        (by simp [Scanner.scan_token, Scanner.advance, Scanner.current_char, hcc,
          h40, h41, h123, h125, h44, h46])
    by_cases h45 : cc = [45]
    · exact mk1 TokenType.Minus (by simp)
        (by simp [Scanner.scan_token, Scanner.advance, Scanner.current_char, hcc,
          h40, h41, h123, h125, h44, h46, h45])
    by_cases h43 : cc = [43]
    · exact mk1 TokenType.Plus (by simp)
        (by simp [Scanner.scan_token, Scanner.advance, Scanner.current_char, hcc,
          h40, h41, h123, h125, h44, h46, h45, h43])
    by_cases h59 : cc = [59]
    · exact mk1 TokenType.Semicolon (by simp)
        (by simp [Scanner.scan_token, Scanner.advance, Scanner.current_char, hcc,
          h40, h41, h123, h125, h44, h46, h45, h43, h59])
    by_cases h42 : cc = [42]
    · exact mk1 TokenType.Star (by simp)
        (by simp [Scanner.scan_token, Scanner.advance, Scanner.current_char, hcc,
          h40, h41, h123, h125, h44, h46, h45, h43, h59, h42])
    by_cases h61 : cc = [61]
    · rcases matches_next_cases ({ sc with current := sc.current + 1 } : Scanner) [61] with
        hm | ⟨hm, hlt⟩
      · exact mk1 TokenType.Equal (by simp)
          (by simp [Scanner.scan_token, Scanner.advance, Scanner.current_char, hcc,
            h40, h41, h123, h125, h44, h46, h45, h43, h59, h42, h61, hm])
      · refine mk2 TokenType.EqualEqual (by simp) (by have := hlt; simp at this; omega) ?_
        simp [Scanner.scan_token, Scanner.advance, Scanner.current_char, hcc,
          h40, h41, h123, h125, h44, h46, h45, h43, h59, h42, h61, hm]
    by_cases h33 : cc = [33]
    · rcases matches_next_cases ({ sc with current := sc.current + 1 } : Scanner) [61] with
        hm | ⟨hm, hlt⟩
      · exact mk1 TokenType.Bang (by simp)
          (by simp [Scanner.scan_token, Scanner.advance, Scanner.current_char, hcc,
            h40, h41, h123, h125, h44, h46, h45, h43, h59, h42, h61, h33, hm])
      · refine mk2 TokenType.BangEqual (by simp) (by have := hlt; simp at this; omega) ?_
        simp [Scanner.scan_token, Scanner.advance, Scanner.current_char, hcc,
          h40, h41, h123, h125, h44, h46, h45, h43, h59, h42, h61, h33, hm]
    by_cases h60 : cc = [60]
    · rcases matches_next_cases ({ sc with current := sc.current + 1 } : Scanner) [61] with
        hm | ⟨hm, hlt⟩
      · exact mk1 TokenType.Less (by simp)
          (by simp [Scanner.scan_token, Scanner.advance, Scanner.current_char, hcc,
            h40, h41, h123, h125, h44, h46, h45, h43, h59, h42, h61, h33, h60, hm])
      · refine mk2 TokenType.LessEqual (by simp) (by have := hlt; simp at this; omega) ?_
        simp [Scanner.scan_token, Scanner.advance, Scanner.current_char, hcc,
          h40, h41, h123, h125, h44, h46, h45, h43, h59, h42, h61, h33, h60, hm]
    by_cases h62 : cc = [62]
    · rcases matches_next_cases ({ sc with current := sc.current + 1 } : Scanner) [61] with
        hm | ⟨hm, hlt⟩
      · exact mk1 TokenType.Greater (by simp)
          (by simp [Scanner.scan_token, Scanner.advance, Scanner.current_char, hcc,
            h40, h41, h123, h125, h44, h46, h45, h43, h59, h42, h61, h33, h60, h62, hm])
      · refine mk2 TokenType.GreaterEqual (by simp) (by have := hlt; simp at this; omega) ?_
        simp [Scanner.scan_token, Scanner.advance, Scanner.current_char, hcc,
          h40, h41, h123, h125, h44, h46, h45, h43, h59, h42, h61, h33, h60, h62, hm]
    exact mk1 (TokenType.UnknownToken cc) (by simp)
      (by simp [Scanner.scan_token, Scanner.advance, Scanner.current_char, hcc,
        h40, h41, h123, h125, h44, h46, h45, h43, h59, h42, h61, h33, h60, h62])

lemma add_token_tokens (sc base : Scanner) (tt : TokenType)
    (h : sc.tokens = base.tokens) (hl : sc.line = base.line)
    (hne : tt ≠ TokenType.Eof) :
    ∃ nt, (sc.add_token tt none).tokens = base.tokens ++ nt ∧ ∀ t ∈ nt,
      t.literal = none ∧ t.line = base.line ∧ t.token_type ≠ TokenType.Eof := by
  refine ⟨[Token.mk tt ((strGetRange sc.source sc.start sc.current).getD []) none sc.line],
    ?_, ?_⟩
  · simp [Scanner.add_token, h]
  · simp [hl, hne]

lemma scanStep_basic {sc sc1 : Scanner} {oe : Option LoxError}
    (h : sc.scanStep = some (sc1, oe)) :
    sc1.source = sc.source ∧ sc1.line = sc.line ∧ sc1.errors = sc.errors ∧
    sc1.start = sc.current ∧ sc.current < sc1.current ∧
    sc1.current ≤ sc.source.length ∧
    (∃ nt, sc1.tokens = sc.tokens ++ nt ∧ ∀ t ∈ nt,
      t.literal = none ∧ t.line = sc.line ∧ t.token_type ≠ TokenType.Eof) ∧
    (∀ e, oe = some e → e.line = sc.line) := by
  rcases scan_token_cases ({ sc with start := sc.current } : Scanner) with hst |
    ⟨tt, sc2, hst, hsrc, hstt, hline, htok, herr, hcur, hle, hne⟩
  · rw [Scanner.scanStep, hst] at h
    exact Option.noConfusion h
  · rw [Scanner.scanStep, hst] at h
    cases tt <;>
    first
      | exact absurd rfl hne
      -- first alternative: the UnknownToken branch produces an error, no token
      | (simp only [Option.some.injEq, Prod.mk.injEq] at h
         obtain ⟨rfl, rfl⟩ := h
         refine ⟨hsrc, hline, herr, hstt, hcur, hle, ⟨[], by simp [htok], by simp⟩, ?_⟩
         rintro e he
         injection he with he
         subst he
         simpa using hline)
      -- second alternative: every other branch appends one classified token
      | (simp only [Option.some.injEq, Prod.mk.injEq] at h
         obtain ⟨rfl, rfl⟩ := h
         refine ⟨by simpa [Scanner.add_token] using hsrc,
           by simpa [Scanner.add_token] using hline,
           by simpa [Scanner.add_token] using herr,
           by simpa [Scanner.add_token] using hstt,
           by simpa [Scanner.add_token] using hcur,
           by simpa [Scanner.add_token] using hle,
           add_token_tokens _ _ _ (by simpa using htok) (by simpa using hline) hne,
           by simp⟩)

lemma scanLoopF_at_end {sc : Scanner} (h : sc.is_at_end = true)
    (fuel : Nat) (errs : List LoxError) :
    Scanner.scanLoopF fuel sc errs = some (sc, errs) := by
  cases fuel <;> simp [Scanner.scanLoopF, h]

lemma scanLoopF_spec : ∀ (fuel : Nat) (sc : Scanner) (errs : List LoxError)
    (sc' : Scanner) (errs' : List LoxError),
    Scanner.scanLoopF fuel sc errs = some (sc', errs') →
    sc'.source = sc.source ∧ sc'.line = sc.line ∧ sc'.errors = sc.errors ∧
    sc.current ≤ sc'.current ∧ sc.source.length ≤ sc'.current ∧
    (sc.current ≤ sc.source.length → sc'.current = sc.source.length) ∧
    (∃ nt, sc'.tokens = sc.tokens ++ nt ∧ ∀ t ∈ nt,
      t.literal = none ∧ t.line = sc.line ∧ t.token_type ≠ TokenType.Eof) ∧
    (∃ ne, errs' = errs ++ ne ∧ ∀ e ∈ ne, e.line = sc.line) := by
  intro fuel
  induction fuel with
  | zero =>
    intro sc errs sc' errs' h
    unfold Scanner.scanLoopF at h
    split at h
    case isTrue hend =>
      simp only [Option.some.injEq, Prod.mk.injEq] at h
      obtain ⟨rfl, rfl⟩ := h
      unfold Scanner.is_at_end at hend
      simp at hend
      exact ⟨rfl, rfl, rfl, le_refl _, hend, fun h2 => by omega,
        ⟨[], by simp, by simp⟩, ⟨[], by simp, by simp⟩⟩
    case isFalse => exact Option.noConfusion h
  | succ n ih =>
    intro sc errs sc' errs' h
    unfold Scanner.scanLoopF at h
    split at h
    case isTrue hend =>
      simp only [Option.some.injEq, Prod.mk.injEq] at h
      obtain ⟨rfl, rfl⟩ := h
      unfold Scanner.is_at_end at hend
      simp at hend
      exact ⟨rfl, rfl, rfl, le_refl _, hend, fun h2 => by omega,
        ⟨[], by simp, by simp⟩, ⟨[], by simp, by simp⟩⟩
    case isFalse hend =>
      cases hst : sc.scanStep with
      | none => rw [hst] at h; exact Option.noConfusion h
      | some p =>
        obtain ⟨sc1, oe⟩ := p
        rw [hst] at h
        obtain ⟨hsrc, hline, herr, hstt, hcur, hle, ⟨nt, hnt, hntp⟩, hoe⟩ :=
          scanStep_basic hst
        cases oe with
        | none =>
          obtain ⟨h1, h2, h3, h4, h5, h6, ⟨nt2, hnt2, hnt2p⟩, ⟨ne2, hne2, hne2p⟩⟩ :=
            ih sc1 errs sc' errs' h
          refine ⟨h1.trans hsrc, h2.trans hline, h3.trans herr, by omega,
            by rw [← hsrc]; omega, ?_, ?_, ?_⟩
          · intro hcl
            rw [h6 (by rw [hsrc]; omega), hsrc]
          · refine ⟨nt ++ nt2, by rw [hnt2, hnt, List.append_assoc], ?_⟩
            intro t ht
            rcases List.mem_append.mp ht with ht | ht
            · exact hntp t ht
            · obtain ⟨p1, p2, p3⟩ := hnt2p t ht
              exact ⟨p1, p2.trans hline, p3⟩
          · refine ⟨ne2, hne2, ?_⟩
            intro e he
            exact (hne2p e he).trans hline
        | some er =>
          obtain ⟨h1, h2, h3, h4, h5, h6, ⟨nt2, hnt2, hnt2p⟩, ⟨ne2, hne2, hne2p⟩⟩ :=
            ih sc1 (errs ++ [er]) sc' errs' h
          refine ⟨h1.trans hsrc, h2.trans hline, h3.trans herr, by omega,
            by rw [← hsrc]; omega, ?_, ?_, ?_⟩
          · intro hcl
            rw [h6 (by rw [hsrc]; omega), hsrc]
          · refine ⟨nt ++ nt2, by rw [hnt2, hnt, List.append_assoc], ?_⟩
            intro t ht
            rcases List.mem_append.mp ht with ht | ht
            · exact hntp t ht
            · obtain ⟨p1, p2, p3⟩ := hnt2p t ht
              exact ⟨p1, p2.trans hline, p3⟩
          · refine ⟨[er] ++ ne2, by rw [hne2, List.append_assoc], ?_⟩
            intro e he
            rcases List.mem_append.mp he with he | he
            · rw [List.mem_singleton] at he
              subst he
              exact hoe e rfl
            · exact (hne2p e he).trans hline

lemma scanLoopF_fuel_irrel : ∀ (f1 f2 : Nat) (sc : Scanner) (errs : List LoxError),
    sc.source.length - sc.current ≤ f1 → sc.source.length - sc.current ≤ f2 →
    Scanner.scanLoopF f1 sc errs = Scanner.scanLoopF f2 sc errs := by
  intro f1
  induction f1 with
  | zero =>
    intro f2 sc errs h1 h2
    have hend : sc.is_at_end = true := by
      unfold Scanner.is_at_end
      simp
      omega
    rw [scanLoopF_at_end hend 0 errs, scanLoopF_at_end hend f2 errs]
  | succ n ih =>
    intro f2 sc errs h1 h2
    by_cases hend : sc.is_at_end = true
    · rw [scanLoopF_at_end hend _ errs, scanLoopF_at_end hend f2 errs]
    · have hlt : sc.current < sc.source.length := by
        unfold Scanner.is_at_end at hend
        simp at hend
        omega
      obtain ⟨f2', rfl⟩ : ∃ k, f2 = k + 1 := by
        cases f2 with
        | zero => exfalso; omega
        | succ k => exact ⟨k, rfl⟩
      unfold Scanner.scanLoopF
      rw [if_neg hend, if_neg hend]
      cases hst : sc.scanStep with
      | none => rfl
      | some p =>
        obtain ⟨sc1, oe⟩ := p
        obtain ⟨hsrc, -, -, -, hcur, -, -, -⟩ := scanStep_basic hst
        have hm1 : sc1.source.length - sc1.current ≤ n := by rw [hsrc]; omega
        have hm2 : sc1.source.length - sc1.current ≤ f2' := by rw [hsrc]; omega
        cases oe with
        | none => exact ih f2' sc1 errs hm1 hm2
        | some e => exact ih f2' sc1 (errs ++ [e]) hm1 hm2

lemma scan_tokens_inv {sc sc' : Scanner} (h : sc.scan_tokens = some sc') :
    ∃ sc1 errs,
      Scanner.scanLoopF (sc.source.length - sc.current) sc [] = some (sc1, errs) ∧
      sc'.tokens = sc1.tokens ++ [Token.mk TokenType.Eof [] none sc1.line] ∧
      sc'.line = sc1.line ∧ sc'.current = sc1.current ∧ sc'.source = sc1.source ∧
      sc'.errors = (if errs.isEmpty then sc1.errors else some errs) := by
  unfold Scanner.scan_tokens at h
  cases hl : Scanner.scanLoopF (sc.source.length - sc.current) sc [] with
  | none => rw [hl] at h; exact Option.noConfusion h
  | some p =>
    obtain ⟨sc1, errs⟩ := p
    rw [hl] at h
    simp only [Option.some.injEq] at h
    refine ⟨sc1, errs, rfl, ?_, ?_, ?_, ?_, ?_⟩ <;>
      (subst h; by_cases he : errs.isEmpty <;> simp [he])

lemma scanStep_unknown {sc : Scanner} {b : Nat}
    (hb : sc.source.get? sc.current = some b)
    (h0 : isCharBoundary sc.source sc.current = true)
    (h1 : isCharBoundary sc.source (sc.current + 1) = true)
    (hrec : recognizedByte b = false) :
    sc.scanStep = some ({ sc with start := sc.current, current := sc.current + 1 },
      some { line := sc.line, message := unexpectedMsg b }) := by
  have hcc : strGetRange sc.source sc.current (sc.current + 1) = some [b] :=
    strGetRange_single hb h0 h1
  obtain ⟨n40, n41, n123, n125, n44, n46, n45, n43, n59, n42, n61, n33, n60, n62⟩ :=
    not_recognized_ne hrec
  simp [Scanner.scanStep, Scanner.scan_token, Scanner.advance, Scanner.current_char,
    unexpectedMsg, hcc, n40, n41, n123, n125, n44, n46, n45, n43, n59, n42, n61,
    n33, n60, n62]

set_option maxHeartbeats 1600000 in
lemma scanStep_punct {sc : Scanner} {b : Nat} {t : TokenType}
    (hb : sc.source.get? sc.current = some b)
    (h0 : isCharBoundary sc.source sc.current = true)
    (h1 : isCharBoundary sc.source (sc.current + 1) = true)
    (hp : punctType b = some t) :
    sc.scanStep = some
      ({ sc with
          start := sc.current
          current := sc.current + 1
          tokens := sc.tokens ++ [Token.mk t [b] none sc.line] }, none) := by
  have hcc : strGetRange sc.source sc.current (sc.current + 1) = some [b] :=
    strGetRange_single hb h0 h1
  unfold punctType at hp
  split_ifs at hp <;>
  first
    | exact Option.noConfusion hp
    | (injection hp with hp
       subst_vars
       simp [Scanner.scanStep, Scanner.scan_token, Scanner.advance,
         Scanner.current_char, Scanner.add_token, hcc])

set_option maxHeartbeats 1600000 in
lemma scanStep_op_matched {sc : Scanner} {b : Nat} {t : TokenType}
    (hb : sc.source.get? sc.current = some b)
    (h0 : isCharBoundary sc.source sc.current = true)
    (hnext : sc.source.get? (sc.current + 1) = some 61)
    (hb2 : isCharBoundary sc.source (sc.current + 2) = true)
    (hc : combinedType b = some t) :
    sc.scanStep = some
      ({ sc with
          start := sc.current
          current := sc.current + 1 + 1
          tokens := sc.tokens ++ [Token.mk t [b, 61] none sc.line] }, none) := by
  have h1 : isCharBoundary sc.source (sc.current + 1) = true :=
    isCharBoundary_of_lt128 hnext (by omega)
  have hcc : strGetRange sc.source sc.current (sc.current + 1) = some [b] :=
    strGetRange_single hb h0 h1
  have hlex : strGetRange sc.source sc.current (sc.current + 2) = some [b, 61] := by
    exact strGetRange_two hb hnext h0 hb2
  have hm : (({ sc with start := sc.current, current := sc.current + 1 } : Scanner)).matches_next [61] =
      (true, { sc with start := sc.current, current := sc.current + 1 + 1 }) := by
    have h2 := @matches_next_matched
      { sc with start := sc.current, current := sc.current + 1 }
      (by simpa using hnext) (by simpa using hb2)
    simpa using h2
  unfold combinedType at hc
  split_ifs at hc <;>
  first
    | exact Option.noConfusion hc
    | (injection hc with hc
       subst_vars
       simp [Scanner.scanStep, Scanner.scan_token, Scanner.advance,
         Scanner.current_char, Scanner.add_token, hcc, hm, hlex])

set_option maxHeartbeats 1600000 in
lemma scanStep_op_missed {sc : Scanner} {b : Nat} {t : TokenType}
    (hb : sc.source.get? sc.current = some b)
    (h0 : isCharBoundary sc.source sc.current = true)
    (h1 : isCharBoundary sc.source (sc.current + 1) = true)
    (hnext : sc.source.get? (sc.current + 1) = none ∨
      ∃ d, sc.source.get? (sc.current + 1) = some d ∧ d ≠ 61)
    (hs : singleOpType b = some t) :
    sc.scanStep = some
      ({ sc with
          start := sc.current
          current := sc.current + 1
          tokens := sc.tokens ++ [Token.mk t [b] none sc.line] }, none) := by
  have hcc : strGetRange sc.source sc.current (sc.current + 1) = some [b] :=
    strGetRange_single hb h0 h1
  have hm : (({ sc with start := sc.current, current := sc.current + 1 } : Scanner)).matches_next [61] =
      (false, { sc with start := sc.current, current := sc.current + 1 }) := by
    rcases hnext with hn | ⟨d, hd, hd61⟩
    · exact @matches_next_missed_none
        { sc with start := sc.current, current := sc.current + 1 }
        (by simpa using hn) [61]
    · exact @matches_next_missed_ne
        { sc with start := sc.current, current := sc.current + 1 } d
        (by simpa using hd) hd61
  unfold singleOpType at hs
  split_ifs at hs <;>
  first
    | exact Option.noConfusion hs
    | (injection hs with hs
       subst_vars
       simp [Scanner.scanStep, Scanner.scan_token, Scanner.advance,
         Scanner.current_char, Scanner.add_token, hcc, hm])

lemma mem_of_get? {s : List Nat} {i b : Nat} (h : s.get? i = some b) : b ∈ s := by
  obtain ⟨hlt, hget⟩ := List.get?_eq_some.mp h
  exact hget ▸ List.get_mem s i hlt

lemma singleOp_combined {b : Nat} {t : TokenType} (h : singleOpType b = some t) :
    ∃ ct, combinedType b = some ct := by
  unfold singleOpType at h
  split_ifs at h <;>
  first
    | exact Option.noConfusion h
    | (subst_vars; exact ⟨_, rfl⟩)

lemma byteClass (b : Nat) :
    (∃ t, punctType b = some t) ∨ (∃ t, singleOpType b = some t) ∨
    recognizedByte b = false := by
  by_cases hr : recognizedByte b = true
  · unfold recognizedByte at hr
    simp only [Bool.or_eq_true, Option.isSome_iff_exists] at hr
    rcases hr with ⟨t, ht⟩ | ⟨t, ht⟩
    · exact Or.inl ⟨t, ht⟩
    · exact Or.inr (Or.inl ⟨t, ht⟩)
  · exact Or.inr (Or.inr (by simpa using hr))

lemma scanStep_ascii_cases {sc : Scanner} (hascii : asciiSource sc.source)
    (hlt : sc.current < sc.source.length) :
    ∃ b, sc.source.get? sc.current = some b ∧ b < 128 ∧
    ((∃ t, punctType b = some t ∧ sc.scanStep = some
        ({ sc with
            start := sc.current
            current := sc.current + 1
            tokens := sc.tokens ++ [Token.mk t [b] none sc.line] }, none)) ∨
     (∃ t, combinedType b = some t ∧ sc.source.get? (sc.current + 1) = some 61 ∧
        sc.scanStep = some
        ({ sc with
            start := sc.current
            current := sc.current + 1 + 1
            tokens := sc.tokens ++ [Token.mk t [b, 61] none sc.line] }, none)) ∨
     (∃ t, singleOpType b = some t ∧ sc.scanStep = some
        ({ sc with
            start := sc.current
            current := sc.current + 1
            tokens := sc.tokens ++ [Token.mk t [b] none sc.line] }, none)) ∨
     (recognizedByte b = false ∧ sc.scanStep = some
        ({ sc with
            start := sc.current
            current := sc.current + 1 }, some (LoxError.mk sc.line (unexpectedMsg b))))) := by
  obtain ⟨b, hb⟩ := get?_exists_of_lt hlt
  have hb128 : b < 128 := hascii b (mem_of_get? hb)
  have h0 : isCharBoundary sc.source sc.current = true := isCharBoundary_of_lt128 hb hb128
  have h1 : isCharBoundary sc.source (sc.current + 1) = true :=
    asciiSource_boundary hascii (by omega)
  refine ⟨b, hb, hb128, ?_⟩
  rcases byteClass b with ⟨t, ht⟩ | ⟨t, ht⟩ | hrec
  · exact Or.inl ⟨t, ht, scanStep_punct hb h0 h1 ht⟩
  · rcases Nat.lt_or_ge (sc.current + 1) sc.source.length with h2 | h2
    · obtain ⟨d, hd⟩ := get?_exists_of_lt h2
      by_cases hd61 : d = 61
      · subst hd61
        obtain ⟨ct, hct⟩ := singleOp_combined ht
        have hb2 : isCharBoundary sc.source (sc.current + 2) = true :=
          asciiSource_boundary hascii (by omega)
        exact Or.inr (Or.inl ⟨ct, hct, hd, scanStep_op_matched hb h0 hd hb2 hct⟩)
      · exact Or.inr (Or.inr (Or.inl
          ⟨t, ht, scanStep_op_missed hb h0 h1 (Or.inr ⟨d, hd, hd61⟩) ht⟩))
    · have hn : sc.source.get? (sc.current + 1) = none := List.get?_eq_none.mpr h2
      exact Or.inr (Or.inr (Or.inl
        ⟨t, ht, scanStep_op_missed hb h0 h1 (Or.inl hn) ht⟩))
  · exact Or.inr (Or.inr (Or.inr ⟨hrec, scanStep_unknown hb h0 h1 hrec⟩))

lemma scanLoopF_ascii_some : ∀ (fuel : Nat) (sc : Scanner) (errs : List LoxError),
    asciiSource sc.source → sc.source.length - sc.current ≤ fuel →
    ∃ r, Scanner.scanLoopF fuel sc errs = some r := by
  intro fuel
  induction fuel with
  | zero =>
    intro sc errs ha h1
    have hend : sc.is_at_end = true := by
      unfold Scanner.is_at_end
      simp
      omega
    exact ⟨_, scanLoopF_at_end hend 0 errs⟩
  | succ n ih =>
    intro sc errs ha h1
    by_cases hend : sc.is_at_end = true
    · exact ⟨_, scanLoopF_at_end hend _ errs⟩
    · have hlt : sc.current < sc.source.length := by
        unfold Scanner.is_at_end at hend
        simp at hend
        omega
      obtain ⟨b, hb, hb128, hcases⟩ := scanStep_ascii_cases ha hlt
      have step :
          ∀ sc1 : Scanner, ∀ oe, sc.scanStep = some (sc1, oe) →
          ∃ r, Scanner.scanLoopF (n + 1) sc errs = some r := by
        intro sc1 oe hst
        obtain ⟨hsrc, -, -, -, hcur, -, -, -⟩ := scanStep_basic hst
        have ha1 : asciiSource sc1.source := by rw [hsrc]; exact ha
        have hm : sc1.source.length - sc1.current ≤ n := by rw [hsrc]; omega
        unfold Scanner.scanLoopF
        rw [if_neg hend, hst]
        cases oe with
        | none => exact ih sc1 errs ha1 hm
        | some e => exact ih sc1 (errs ++ [e]) ha1 hm
      rcases hcases with ⟨t, -, hst⟩ | ⟨t, -, -, hst⟩ | ⟨t, -, hst⟩ | ⟨-, hst⟩ <;>
        exact step _ _ hst

lemma countMsg_append (l1 l2 : List LoxError) (m : List Nat) :
    countMsg (l1 ++ l2) m = countMsg l1 m + countMsg l2 m := by
  simp [countMsg, List.filter_append]

lemma countMsg_single (e : LoxError) (m : List Nat) :
    countMsg [e] m = if e.message = m then 1 else 0 := by
  by_cases h : e.message = m <;> simp [countMsg, List.filter, h]

lemma unexpectedMsg_inj {a b : Nat} (h : unexpectedMsg a = unexpectedMsg b) : a = b := by
  unfold unexpectedMsg at h
  have h2 := List.append_cancel_left h
  simpa using h2

lemma punct_recognized {b : Nat} {t : TokenType} (h : punctType b = some t) :
    recognizedByte b = true := by
  unfold recognizedByte
  rw [h]
  simp

lemma singleOp_recognized {b : Nat} {t : TokenType} (h : singleOpType b = some t) :
    recognizedByte b = true := by
  unfold recognizedByte
  rw [h]
  simp

lemma combined_recognized {b : Nat} {t : TokenType} (h : combinedType b = some t) :
    recognizedByte b = true := by
  unfold combinedType at h
  split_ifs at h <;>
  first
    | exact Option.noConfusion h
    | (subst_vars; decide)

lemma ne_of_recognized {b x : Nat} (hb : recognizedByte b = true)
    (hx : recognizedByte x = false) : b ≠ x := by
  intro he
  rw [he, hx] at hb
  exact Bool.noConfusion hb

lemma scanLoopF_count : ∀ (fuel : Nat) (sc : Scanner) (errs : List LoxError)
    (sc' : Scanner) (errs' : List LoxError) (x : Nat),
    asciiSource sc.source → recognizedByte x = false →
    Scanner.scanLoopF fuel sc errs = some (sc', errs') →
    countMsg errs' (unexpectedMsg x) =
      countMsg errs (unexpectedMsg x) + (sc.source.drop sc.current).count x ∧
    (∀ t ∈ sc'.tokens, t ∈ sc.tokens ∨ x ∉ t.lexeme) := by
  intro fuel
  induction fuel with
  | zero =>
    intro sc errs sc' errs' x ha hx h
    unfold Scanner.scanLoopF at h
    split at h
    case isTrue hend =>
      simp only [Option.some.injEq, Prod.mk.injEq] at h
      obtain ⟨rfl, rfl⟩ := h
      unfold Scanner.is_at_end at hend
      simp at hend
      rw [List.drop_eq_nil_of_le hend]
      exact ⟨by simp, fun t ht => Or.inl ht⟩
    case isFalse => exact Option.noConfusion h
  | succ n ih =>
    intro sc errs sc' errs' x ha hx h
    by_cases hend : sc.is_at_end = true
    · rw [scanLoopF_at_end hend _ _] at h
      simp only [Option.some.injEq, Prod.mk.injEq] at h
      obtain ⟨rfl, rfl⟩ := h
      unfold Scanner.is_at_end at hend
      simp at hend
      rw [List.drop_eq_nil_of_le hend]
      exact ⟨by simp, fun t ht => Or.inl ht⟩
    · have hlt : sc.current < sc.source.length := by
        unfold Scanner.is_at_end at hend
        simp at hend
        omega
      obtain ⟨b, hb, hb128, hcases⟩ := scanStep_ascii_cases ha hlt
      obtain ⟨hblt, hbelem⟩ := getElem_of_get? hb
      have hdrop1 : sc.source.drop sc.current = b :: sc.source.drop (sc.current + 1) := by
        rw [List.drop_eq_getElem_cons hblt, hbelem]
      unfold Scanner.scanLoopF at h
      rw [if_neg hend] at h
      rcases hcases with ⟨t, ht, hst⟩ | ⟨t, ht, hnx, hst⟩ | ⟨t, ht, hst⟩ | ⟨hrec, hst⟩
      · -- single-character punctuation token, one byte consumed, no error
        rw [hst] at h
        have hbx : b ≠ x := ne_of_recognized (punct_recognized ht) hx
        obtain ⟨hc, htk⟩ := ih _ _ _ _ x (by exact ha) hx h
        constructor
        · rw [hc, hdrop1, List.count_cons]
          simp [hbx]
        · intro tk htk2
          rcases htk tk htk2 with hm | hm
          · rcases List.mem_append.mp hm with hm | hm
            · exact Or.inl hm
            · rw [List.mem_singleton] at hm
              subst hm
              right
              simp only [List.mem_singleton]
              exact fun he => hbx he.symm
          · exact Or.inr hm
      · -- combined two-character operator, two bytes consumed, no error
        rw [hst] at h
        have hbx : b ≠ x := ne_of_recognized (combined_recognized ht) hx
        have h61x : (61 : Nat) ≠ x := ne_of_recognized (by decide) hx
        obtain ⟨h61lt, h61elem⟩ := getElem_of_get? hnx
        have hdrop2 : sc.source.drop (sc.current + 1) =
            61 :: sc.source.drop (sc.current + 1 + 1) := by
          rw [List.drop_eq_getElem_cons h61lt, h61elem]
        obtain ⟨hc, htk⟩ := ih _ _ _ _ x (by exact ha) hx h
        constructor
        · rw [hc, hdrop1, hdrop2, List.count_cons, List.count_cons]
          simp [hbx, h61x]
        · intro tk htk2
          rcases htk tk htk2 with hm | hm
          · rcases List.mem_append.mp hm with hm | hm
            · exact Or.inl hm
            · rw [List.mem_singleton] at hm
              subst hm
              right
              intro hmem
              rcases List.mem_cons.mp hmem with he | hmem2
              · exact hbx he.symm
              · rw [List.mem_singleton] at hmem2
                exact h61x hmem2.symm
          · exact Or.inr hm
      · -- one-character operator token, one byte consumed, no error
        rw [hst] at h
        have hbx : b ≠ x := ne_of_recognized (singleOp_recognized ht) hx
        obtain ⟨hc, htk⟩ := ih _ _ _ _ x (by exact ha) hx h
        constructor
        · rw [hc, hdrop1, List.count_cons]
          simp [hbx]
        · intro tk htk2
          rcases htk tk htk2 with hm | hm
          · rcases List.mem_append.mp hm with hm | hm
            · exact Or.inl hm
            · rw [List.mem_singleton] at hm
              subst hm
              right
              simp only [List.mem_singleton]
              exact fun he => hbx he.symm
          · exact Or.inr hm
      · -- unrecognized byte: one error recorded, no token
        rw [hst] at h
        obtain ⟨hc, htk⟩ := ih _ _ _ _ x (by exact ha) hx h
        constructor
        · rw [hc, countMsg_append, countMsg_single, hdrop1, List.count_cons]
          by_cases hbx : b = x
          · subst hbx
            simp
            omega
          · have hmsg : ¬(unexpectedMsg b = unexpectedMsg x) := fun hme =>
              hbx (unexpectedMsg_inj hme)
            simp [hmsg, hbx]
        · intro tk htk2
          rcases htk tk htk2 with hm | hm
          · exact Or.inl hm
          · exact Or.inr hm

lemma runScan_eq (s : List Nat) {sc1 : Scanner} {errs : List LoxError}
    (hl : Scanner.scanLoopF s.length (Scanner.new s) [] = some (sc1, errs)) :
    runScan s = some (if errs.isEmpty
      then { sc1 with tokens := sc1.tokens ++ [Token.mk TokenType.Eof [] none sc1.line] }
      else { sc1 with
              tokens := sc1.tokens ++ [Token.mk TokenType.Eof [] none sc1.line]
              errors := some errs }) := by
  unfold runScan Scanner.scan_tokens
  rw [show (Scanner.new s).source.length - (Scanner.new s).current = s.length from rfl, hl]

lemma runScanErrors_eq (s : List Nat) {sc1 : Scanner} {errs : List LoxError}
    (hl : Scanner.scanLoopF s.length (Scanner.new s) [] = some (sc1, errs)) :
    runScanErrors s = errs := by
  unfold runScanErrors
  rw [hl]

lemma runScan_inv {s : List Nat} {sc' : Scanner} (h : runScan s = some sc') :
    ∃ sc1 errs,
      Scanner.scanLoopF s.length (Scanner.new s) [] = some (sc1, errs) ∧
      sc'.tokens = sc1.tokens ++ [Token.mk TokenType.Eof [] none sc1.line] ∧
      sc'.line = sc1.line ∧ sc'.current = sc1.current ∧ sc'.source = sc1.source ∧
      sc'.errors = (if errs.isEmpty then none else some errs) := by
  obtain ⟨sc1, errs, hl, htok, hline, hcur, hsrc, herr⟩ := scan_tokens_inv h
  refine ⟨sc1, errs, hl, htok, hline, hcur, hsrc, ?_⟩
  obtain ⟨-, -, herr1, -, -, -, -, -⟩ := scanLoopF_spec _ _ _ _ _ hl
  rw [herr]
  by_cases he : errs.isEmpty <;> simp [he, herr1, Scanner.new]

/-- C1 (counterexample): on the two-byte UTF-8 input `é` the scan does not
complete: `current_char` slices the source at byte index 1, which is not a
character boundary, so `scan_tokens` panics instead of recording an error. -/
theorem C1_counterexample : runScan [195, 169] = none := by decide

/-- C1 (amended): for every ASCII input string, `scan_tokens` completes
without panicking and the cursor reaches the end of the source; unrecognized
characters degrade to error records rather than aborting the scan. -/
theorem C1_scan_completes_ascii (s : List Nat) (hs : asciiSource s) :
    ∃ sc', runScan s = some sc' ∧ sc'.current = s.length := by
  obtain ⟨⟨sc1, errs⟩, hl⟩ :=
    scanLoopF_ascii_some s.length (Scanner.new s) [] hs (by simp [Scanner.new])
  have hrs := runScan_eq s hl
  obtain ⟨-, -, -, -, -, h6, -, -⟩ := scanLoopF_spec _ _ _ _ _ hl
  have hcur : sc1.current = s.length := by
    simpa [Scanner.new] using h6 (by simp [Scanner.new])
  refine ⟨_, hrs, ?_⟩
  by_cases he : errs.isEmpty <;> simp [he, hcur]

/-- C1 (witness): the amended theorem applied to the single-byte input `#`. -/
theorem C1_witness :
    asciiSource [35] ∧ ∃ sc', runScan [35] = some sc' ∧ sc'.current = [35].length :=
  ⟨by unfold asciiSource; decide,
   C1_scan_completes_ascii [35] (by unfold asciiSource; decide)⟩

/-- C2 (code evaluation at the failing input): scanning the one-character
input consisting of a newline records the error `Unexpected character: \n`
at line 1 and leaves the line counter at 1 — the scanner has no newline
handling at all, contrary to the mandated design. -/
theorem C2_newline_actual_behavior :
    runScan [10] = some (Scanner.mk [10] [Token.mk TokenType.Eof [] none 1] 0 1 1
      (some [LoxError.mk 1 (unexpectedMsg 10)])) := by decide

/-- C3: whenever `scan_tokens` completes, the produced token list ends with
exactly one `Eof` token whose lexeme is empty and whose line is 1, no other
token is of kind `Eof`, and that token renders as the line `EOF  null` with
two spaces. -/
theorem C3_eof_terminator (s : List Nat) (sc' : Scanner)
    (h : runScan s = some sc') :
    (∃ ts, sc'.tokens = ts ++ [Token.mk TokenType.Eof [] none 1] ∧
      ∀ t ∈ ts, t.token_type ≠ TokenType.Eof) ∧
    Token.to_string (Token.mk TokenType.Eof [] none 1) = ascii "EOF  null" := by
  obtain ⟨sc1, errs, hl, htok, hline, hcur, hsrc, herr⟩ := runScan_inv h
  obtain ⟨-, hline1, -, -, -, -, ⟨nt, hnt, hntp⟩, -⟩ := scanLoopF_spec _ _ _ _ _ hl
  have hl1 : sc1.line = 1 := by simpa [Scanner.new] using hline1
  constructor
  · refine ⟨sc1.tokens, by rw [htok, hl1], ?_⟩
    intro t ht
    have hnt' : sc1.tokens = nt := by simpa [Scanner.new] using hnt
    rw [hnt'] at ht
    exact (hntp t ht).2.2
  · decide

/-- C3 (witness): the theorem applied to the empty input. -/
theorem C3_witness :
    runScan [] = some (Scanner.mk [] [Token.mk TokenType.Eof [] none 1] 0 0 1 none) ∧
    ((∃ ts, (Scanner.mk [] [Token.mk TokenType.Eof [] none 1] 0 0 1 none).tokens =
        ts ++ [Token.mk TokenType.Eof [] none 1] ∧
      ∀ t ∈ ts, t.token_type ≠ TokenType.Eof) ∧
    Token.to_string (Token.mk TokenType.Eof [] none 1) = ascii "EOF  null") :=
  ⟨by decide,
   C3_eof_terminator [] (Scanner.mk [] [Token.mk TokenType.Eof [] none 1] 0 0 1 none)
     (by decide)⟩

/-- C6: `has_errors` on a fresh scanner is `false`, and after a completed
scan it is `true` exactly when at least one lexical error was recorded by
the scan loop. -/
theorem C6_has_errors_iff (s : List Nat) :
    (Scanner.new s).has_errors = false ∧
    ∀ sc', runScan s = some sc' →
      (sc'.has_errors = true ↔ runScanErrors s ≠ []) := by
  constructor
  · rfl
  · intro sc' h
    obtain ⟨sc1, errs, hl, -, -, -, -, herr⟩ := runScan_inv h
    have he : runScanErrors s = errs := runScanErrors_eq s hl
    rw [he, Scanner.has_errors, herr]
    by_cases hemp : errs.isEmpty
    · simp [hemp]
      exact List.isEmpty_iff.mp hemp
    · simp [hemp]
      intro hc
      exact hemp (by simp [hc])

/-- C6 (witness): the theorem applied to the input `@`, which records one
error, and whose fresh scanner reports no errors. -/
theorem C6_witness :
    (Scanner.new [64]).has_errors = false ∧
    ((Scanner.mk [64] [Token.mk TokenType.Eof [] none 1] 0 1 1
        (some [LoxError.mk 1 (unexpectedMsg 64)])).has_errors = true ↔
      runScanErrors [64] ≠ []) :=
  ⟨(C6_has_errors_iff [64]).1,
   (C6_has_errors_iff [64]).2
     (Scanner.mk [64] [Token.mk TokenType.Eof [] none 1] 0 1 1
       (some [LoxError.mk 1 (unexpectedMsg 64)])) (by decide)⟩

/-- C7: every successful loop iteration strictly advances the cursor and
re-establishes the invariant `start ≤ current ≤ len(source)`, and the scan
loop is insensitive to any fuel bound of at least `len(source) - current`
iterations — i.e. the `while` loop of `scan_tokens` terminates within that
many iterations on every input. -/
theorem C7_termination :
    (∀ sc sc1 : Scanner, ∀ oe, sc.scanStep = some (sc1, oe) →
      sc.current < sc1.current ∧ sc1.start ≤ sc1.current ∧
      sc1.current ≤ sc1.source.length) ∧
    (∀ (f1 f2 : Nat) (sc : Scanner) (errs : List LoxError),
      sc.source.length - sc.current ≤ f1 → sc.source.length - sc.current ≤ f2 →
      Scanner.scanLoopF f1 sc errs = Scanner.scanLoopF f2 sc errs) := by
  constructor
  · intro sc sc1 oe h
    obtain ⟨hsrc, -, -, hstt, hcur, hle, -, -⟩ := scanStep_basic h
    refine ⟨hcur, by omega, ?_⟩
    rw [hsrc]
    exact hle
  · exact scanLoopF_fuel_irrel

/-- C7 (witness): the step part applied to a scan of `*` and the fuel part
applied at fuels 1 and 5. -/
theorem C7_witness :
    ((Scanner.new [42]).current <
        (Scanner.mk [42] [Token.mk TokenType.Star [42] none 1] 0 1 1 none).current ∧
      (Scanner.mk [42] [Token.mk TokenType.Star [42] none 1] 0 1 1 none).start ≤
        (Scanner.mk [42] [Token.mk TokenType.Star [42] none 1] 0 1 1 none).current ∧
      (Scanner.mk [42] [Token.mk TokenType.Star [42] none 1] 0 1 1 none).current ≤
        (Scanner.mk [42] [Token.mk TokenType.Star [42] none 1] 0 1 1 none).source.length) ∧
    Scanner.scanLoopF 1 (Scanner.new [42]) [] = Scanner.scanLoopF 5 (Scanner.new [42]) [] :=
  ⟨C7_termination.1 (Scanner.new [42])
     (Scanner.mk [42] [Token.mk TokenType.Star [42] none 1] 0 1 1 none) none (by decide),
   C7_termination.2 1 5 (Scanner.new [42]) [] (by decide) (by decide)⟩

/-- C8: every completed scan leaves the line counter at 1, and every token
and every stored error carries line number 1 — nothing in the scanner ever
modifies `line` after `new` initializes it to 1. -/
theorem C8_line_always_one (s : List Nat) (sc' : Scanner)
    (h : runScan s = some sc') :
    sc'.line = 1 ∧ (∀ t ∈ sc'.tokens, t.line = 1) ∧
    (∀ errList, sc'.errors = some errList → ∀ e ∈ errList, e.line = 1) := by
  obtain ⟨sc1, errs, hl, htok, hline, hcur, hsrc, herr⟩ := runScan_inv h
  obtain ⟨-, hline1, -, -, -, -, ⟨nt, hnt, hntp⟩, ⟨ne, hne, hnep⟩⟩ :=
    scanLoopF_spec _ _ _ _ _ hl
  have hl1 : sc1.line = 1 := by simpa [Scanner.new] using hline1
  refine ⟨by rw [hline, hl1], ?_, ?_⟩
  · intro t ht
    rw [htok] at ht
    rcases List.mem_append.mp ht with ht | ht
    · have hnt' : sc1.tokens = nt := by simpa [Scanner.new] using hnt
      rw [hnt'] at ht
      have := (hntp t ht).2.1
      simpa [Scanner.new] using this
    · rw [List.mem_singleton] at ht
      subst ht
      simpa using hl1
  · intro errList hel e he
    rw [herr] at hel
    by_cases hemp : errs.isEmpty
    · rw [if_pos hemp] at hel
      exact Option.noConfusion hel
    · rw [if_neg hemp] at hel
      injection hel with hel
      subst hel
      have hne' : errs = ne := by simpa using hne
      rw [hne'] at he
      have := hnep e he
      simpa [Scanner.new] using this

/-- C8 (witness): the theorem applied to the input `(#`. -/
theorem C8_witness :
    runScan [40, 35] = some (Scanner.mk [40, 35]
      [Token.mk TokenType.LeftParen [40] none 1, Token.mk TokenType.Eof [] none 1]
      1 2 1 (some [LoxError.mk 1 (unexpectedMsg 35)])) ∧
    ((Scanner.mk [40, 35]
      [Token.mk TokenType.LeftParen [40] none 1, Token.mk TokenType.Eof [] none 1]
      1 2 1 (some [LoxError.mk 1 (unexpectedMsg 35)])).line = 1 ∧
     (∀ t ∈ (Scanner.mk [40, 35]
      [Token.mk TokenType.LeftParen [40] none 1, Token.mk TokenType.Eof [] none 1]
      1 2 1 (some [LoxError.mk 1 (unexpectedMsg 35)])).tokens, t.line = 1) ∧
     (∀ errList, (Scanner.mk [40, 35]
      [Token.mk TokenType.LeftParen [40] none 1, Token.mk TokenType.Eof [] none 1]
      1 2 1 (some [LoxError.mk 1 (unexpectedMsg 35)])).errors = some errList →
        ∀ e ∈ errList, e.line = 1)) :=
  ⟨by decide,
   C8_line_always_one [40, 35] (Scanner.mk [40, 35]
     [Token.mk TokenType.LeftParen [40] none 1, Token.mk TokenType.Eof [] none 1]
     1 2 1 (some [LoxError.mk 1 (unexpectedMsg 35)])) (by decide)⟩

/-- C10: every token of a completed scan has no literal, so every rendered
token line ends with the word `null`. -/
theorem C10_literal_null (s : List Nat) (sc' : Scanner)
    (h : runScan s = some sc') :
    ∀ t ∈ sc'.tokens, t.literal = none ∧
      ∃ pre, Token.to_string t = pre ++ ascii "null" := by
  obtain ⟨sc1, errs, hl, htok, -, -, -, -⟩ := runScan_inv h
  obtain ⟨-, -, -, -, -, -, ⟨nt, hnt, hntp⟩, -⟩ := scanLoopF_spec _ _ _ _ _ hl
  intro t ht
  have hlit : t.literal = none := by
    rw [htok] at ht
    rcases List.mem_append.mp ht with ht | ht
    · have hnt' : sc1.tokens = nt := by simpa [Scanner.new] using hnt
      rw [hnt'] at ht
      exact (hntp t ht).1
    · rw [List.mem_singleton] at ht
      subst ht
      rfl
  refine ⟨hlit, t.token_type.display ++ [32] ++ t.lexeme ++ [32], ?_⟩
  unfold Token.to_string
  rw [hlit]

/-- C10 (witness): the theorem applied to the input `+`. -/
theorem C10_witness :
    runScan [43] = some (Scanner.mk [43]
      [Token.mk TokenType.Plus [43] none 1, Token.mk TokenType.Eof [] none 1]
      0 1 1 none) ∧
    (∀ t ∈ (Scanner.mk [43]
      [Token.mk TokenType.Plus [43] none 1, Token.mk TokenType.Eof [] none 1]
      0 1 1 none).tokens, t.literal = none ∧
        ∃ pre, Token.to_string t = pre ++ ascii "null") :=
  ⟨by decide,
   C10_literal_null [43] (Scanner.mk [43]
     [Token.mk TokenType.Plus [43] none 1, Token.mk TokenType.Eof [] none 1]
     0 1 1 none) (by decide)⟩

lemma exists_of_countMsg_pos {l : List LoxError} {m : List Nat}
    (h : 1 ≤ countMsg l m) : ∃ e, e ∈ l ∧ e.message = m := by
  unfold countMsg at h
  obtain ⟨e, he⟩ := List.exists_mem_of_length_pos h
  have hf := List.mem_filter.mp he
  exact ⟨e, hf.1, by simpa using hf.2⟩

/-- C4: for each operator byte `=`, `!`, `<`, `>`: when the immediately
following byte is `=`, the scanner consumes it and emits the combined
two-character token whose lexeme is the full two-character text; otherwise
the lookahead consumes nothing and the one-character token with a
one-character lexeme is emitted, leaving the cursor at the very next
position so the following character is scanned fresh. -/
theorem C4_lookahead (sc : Scanner) (b : Nat)
    (hop : b = 61 ∨ b = 33 ∨ b = 60 ∨ b = 62)
    (hb : sc.source.get? sc.current = some b) :
    (∀ t, combinedType b = some t →
      sc.source.get? (sc.current + 1) = some 61 →
      isCharBoundary sc.source (sc.current + 2) = true →
      sc.scanStep = some
        ({ sc with
            start := sc.current
            current := sc.current + 1 + 1
            tokens := sc.tokens ++ [Token.mk t [b, 61] none sc.line] }, none)) ∧
    (∀ t, singleOpType b = some t →
      (sc.source.get? (sc.current + 1) = none ∨
        ∃ d, sc.source.get? (sc.current + 1) = some d ∧ d ≠ 61) →
      isCharBoundary sc.source (sc.current + 1) = true →
      sc.scanStep = some
        ({ sc with
            start := sc.current
            current := sc.current + 1
            tokens := sc.tokens ++ [Token.mk t [b] none sc.line] }, none)) := by
  have hb128 : b < 128 := by rcases hop with rfl | rfl | rfl | rfl <;> omega
  have h0 : isCharBoundary sc.source sc.current = true :=
    isCharBoundary_of_lt128 hb hb128
  constructor
  · intro t ht hnx hb2
    exact scanStep_op_matched hb h0 hnx hb2 ht
  · intro t ht hnx h1
    exact scanStep_op_missed hb h0 h1 hnx ht

/-- C4 (witness): the matched case on input `==` and the mismatch case on
input `<!`. -/
theorem C4_witness :
    ((Scanner.new [61, 61]).scanStep = some
      (Scanner.mk [61, 61] [Token.mk TokenType.EqualEqual [61, 61] none 1] 0 2 1 none,
        none)) ∧
    ((Scanner.new [60, 33]).scanStep = some
      (Scanner.mk [60, 33] [Token.mk TokenType.Less [60] none 1] 0 1 1 none,
        none)) :=
  ⟨(C4_lookahead (Scanner.new [61, 61]) 61 (Or.inl rfl) (by decide)).1
      TokenType.EqualEqual (by decide) (by decide) (by decide),
   (C4_lookahead (Scanner.new [60, 33]) 60 (Or.inr (Or.inr (Or.inl rfl))) (by decide)).2
      TokenType.Less (by decide) (Or.inr ⟨33, by decide, by decide⟩) (by decide)⟩

/-- C5 (counterexample): for the unrecognized two-byte UTF-8 character `ü`
the scanner does not record an `Unexpected character` error at all — the
byte-indexed slice in `current_char` panics, so no scanner state results. -/
theorem C5_counterexample : runScan [195, 188] = none := by decide

/-- C5 (amended): for every ASCII input and every single-byte character
outside the recognized set, the scan completes, records exactly one error
`Unexpected character: <c>` per occurrence of that character (each at line
1), and no token lexeme ever contains that character. -/
theorem C5_unrecognized_error (s : List Nat) (x : Nat) (hs : asciiSource s)
    (hx : recognizedByte x = false) (hx128 : x < 128) :
    ∃ sc', runScan s = some sc' ∧
      countMsg (runScanErrors s) (unexpectedMsg x) = s.count x ∧
      (∀ e ∈ runScanErrors s, e.line = 1) ∧
      (∀ t ∈ sc'.tokens, x ∉ t.lexeme) := by
  obtain ⟨⟨sc1, errs⟩, hl⟩ :=
    scanLoopF_ascii_some s.length (Scanner.new s) [] hs (by simp [Scanner.new])
  have hrs := runScan_eq s hl
  have herrs := runScanErrors_eq s hl
  obtain ⟨hcnt, htokc⟩ := scanLoopF_count s.length (Scanner.new s) [] sc1 errs x hs hx hl
  obtain ⟨-, -, -, -, -, -, -, ⟨ne, hne, hnep⟩⟩ := scanLoopF_spec _ _ _ _ _ hl
  refine ⟨_, hrs, ?_, ?_, ?_⟩
  · rw [herrs, hcnt]
    simp [countMsg, Scanner.new]
  · intro e he
    rw [herrs] at he
    have hne' : errs = ne := by simpa using hne
    rw [hne'] at he
    have := hnep e he
    simpa [Scanner.new] using this
  · intro t ht
    have ht2 : t ∈ sc1.tokens ++ [Token.mk TokenType.Eof [] none sc1.line] := by
      by_cases he : errs.isEmpty <;> simpa [he] using ht
    rcases List.mem_append.mp ht2 with ht3 | ht3
    · rcases htokc t ht3 with hmem | hnl
      · simp [Scanner.new] at hmem
      · exact hnl
    · rw [List.mem_singleton] at ht3
      subst ht3
      simp

/-- C5 (witness): the amended theorem applied to the input `@@` with the
character `@`: two occurrences give exactly two independent errors. -/
theorem C5_witness :
    asciiSource [64, 64] ∧ recognizedByte 64 = false ∧ 64 < 128 ∧
    ∃ sc', runScan [64, 64] = some sc' ∧
      countMsg (runScanErrors [64, 64]) (unexpectedMsg 64) = [64, 64].count 64 ∧
      (∀ e ∈ runScanErrors [64, 64], e.line = 1) ∧
      (∀ t ∈ sc'.tokens, 64 ∉ t.lexeme) :=
  ⟨by unfold asciiSource; decide, by decide, by decide,
   C5_unrecognized_error [64, 64] 64 (by unfold asciiSource; decide)
     (by decide) (by decide)⟩

/-- C9 (counterexample): the input consisting of a space followed by the
two-byte character `é` contains a space, yet the scan panics and no error
is recorded for the space in the scanner's observable state. -/
theorem C9_counterexample : runScan [32, 195, 169] = none := by decide

/-- C9 (amended): for every ASCII input containing a space or tab, the
scanner treats that character as unrecognized: the scan completes with one
error `Unexpected character: <c>` per occurrence, the stored error list
contains such an error, and whitespace is never skipped silently. -/
theorem C9_whitespace_error (s : List Nat) (b : Nat) (hws : b = 32 ∨ b = 9)
    (hs : asciiSource s) (hmem : b ∈ s) :
    ∃ sc', runScan s = some sc' ∧
      countMsg (runScanErrors s) (unexpectedMsg b) = s.count b ∧
      1 ≤ countMsg (runScanErrors s) (unexpectedMsg b) ∧
      ∃ errList, sc'.errors = some errList ∧
        ∃ e, e ∈ errList ∧ e.message = unexpectedMsg b := by
  have hx : recognizedByte b = false := by rcases hws with rfl | rfl <;> decide
  obtain ⟨⟨sc1, errs⟩, hl⟩ :=
    scanLoopF_ascii_some s.length (Scanner.new s) [] hs (by simp [Scanner.new])
  have hrs := runScan_eq s hl
  have herrs := runScanErrors_eq s hl
  obtain ⟨hcnt, -⟩ := scanLoopF_count s.length (Scanner.new s) [] sc1 errs b hs hx hl
  have hcnt2 : countMsg errs (unexpectedMsg b) = s.count b := by
    rw [hcnt]
    simp [countMsg, Scanner.new]
  have hpos : 0 < s.count b := List.count_pos_iff.mpr hmem
  have hpos2 : 1 ≤ countMsg errs (unexpectedMsg b) := by omega
  have hne : ¬ errs.isEmpty = true := by
    intro hemp
    rw [List.isEmpty_iff.mp hemp] at hpos2
    simp [countMsg] at hpos2
  refine ⟨_, hrs, by rw [herrs]; exact hcnt2, by rw [herrs]; exact hpos2, errs, ?_, ?_⟩
  · simp [hne]
  · exact exists_of_countMsg_pos hpos2

/-- C9 (witness): the amended theorem applied to the input `( )` (a space
between parentheses). -/
theorem C9_witness :
    ((32 : Nat) = 32 ∨ (32 : Nat) = 9) ∧ asciiSource [40, 32, 41] ∧ 32 ∈ [40, 32, 41] ∧
    ∃ sc', runScan [40, 32, 41] = some sc' ∧
      countMsg (runScanErrors [40, 32, 41]) (unexpectedMsg 32) = [40, 32, 41].count 32 ∧
      1 ≤ countMsg (runScanErrors [40, 32, 41]) (unexpectedMsg 32) ∧
      ∃ errList, sc'.errors = some errList ∧
        ∃ e, e ∈ errList ∧ e.message = unexpectedMsg 32 :=
  ⟨Or.inl rfl, by unfold asciiSource; decide, by decide,
   C9_whitespace_error [40, 32, 41] 32 (Or.inl rfl)
     (by unfold asciiSource; decide) (by decide)⟩
